import Mathlib

/-!
Verification of the vee-validate zod adapter (`packages/zod/src/index.ts`).

The adapter wraps a zod schema into a typed-schema facade with three
operations: `parse` (asynchronous safe validation, flattening zod issues
into a path-keyed error map), `cast` (best-effort defaults-plus-merge when
strict parsing throws) and `describe` (path-level required/exists report).

The embedding models:
  * JSON-like runtime values (`Val`),
  * the introspectable structure of zod schemas that the adapter walks
    (`ZodSchemaM`) and zod issues (`ZodIssue`),
  * the JavaScript `Record` used as the error map, including the property
    enumeration order of `Object.values`,
  * the helpers the adapter imports from the `shared` package and from
    vee-validate core; those files are not part of the sources under
    verification, so they are modelled from the specification text.
-/

set_option autoImplicit false

namespace VeeValidateZod

/-- JSON-like runtime values, including JavaScript `undefined`, which the
adapter's default extraction produces for fields without defaults. -/
inductive Val : Type where
  | undef : Val
  | vnull : Val
  | vbool : Bool → Val
  | vnum : Int → Val
  | vstr : String → Val
  | varr : List Val → Val
  | vobj : List (String × Val) → Val

/-- Error entry produced by `parse`: `{ path, errors }` with all messages
raised against one normalized path. -/
structure TypedSchemaError where
  path : String
  errors : List String
deriving DecidableEq, Repr

/-- Report returned by `describe`: `{ required, exists }`. The `exists`
field is named `exists_` because `exists` is a Lean keyword. -/
structure PathDescription where
  required : Bool
  exists_ : Bool
deriving DecidableEq, Repr

/-- Modelled from the spec: `isIndex` from the `shared` package (not under
the verified sources) recognises a numeric array-index path segment. -/
def isIndex (s : String) : Bool :=
  s ≠ "" && s.toList.all (fun c => c.isDigit)

/-- Modelled from the spec: `isObject` from the `shared` package (not under
the verified sources) tests for a plain mapping. -/
def isObjectV : Val → Bool
  | .vobj _ => true
  | _ => false

/-- First value bound to a key in a field list (JavaScript property read). -/
def lookupField : List (String × Val) → String → Option Val
  | [], _ => none
  | (k, v) :: rest, key => if k = key then some v else lookupField rest key

/-- Replace the value bound to a key in a field list, keeping field order. -/
def replaceField (fields : List (String × Val)) (key : String) (nv : Val) :
    List (String × Val) :=
  fields.map (fun kv => if kv.1 = key then (kv.1, nv) else kv)

mutual

/-- Modelled from the spec: `merge` from the `shared` package (not under the
verified sources) deep-merges two values, the second argument's fields
winning; non-mapping arguments make the second argument the result. -/
def mergeVals : Val → Val → Val
  | .vobj fa, .vobj fb => .vobj (mergeFields fa fb)
  | _, b => b
termination_by _a b => sizeOf b

/-- Deep-merge of field lists: fields of the second list override or extend
the first, recursing when a key is bound in both lists. -/
def mergeFields : List (String × Val) → List (String × Val) → List (String × Val)
  | fa, [] => fa
  | fa, (k, vb) :: fbs =>
    match lookupField fa k with
    | some va => mergeFields (replaceField fa k (mergeVals va vb)) fbs
    | none => mergeFields (fa ++ [(k, vb)]) fbs
termination_by _fa fb => sizeOf fb

end

/-- One step of the scanner behind `splitPath`: state is the reversed
current token and, inside a candidate `[digits]` group, the reversed digits
seen so far.  This mirrors how the JavaScript regular expression
`/\.|\[(\d+)\]/` splits a path: a dot always splits, a full `[digits]`
group splits and contributes the digits as a segment, and any failed
bracket group is literal text. -/
def splitScan : List Char → List Char → Option (List Char) → List String
  | [], acc, none => [String.mk acc.reverse]
  | [], acc, some ds => [String.mk (ds ++ '[' :: acc).reverse]
  | c :: rest, acc, some ds =>
    if c.isDigit then splitScan rest acc (some (c :: ds))
    else if c = ']' ∧ ds ≠ [] then
      String.mk acc.reverse :: String.mk ds.reverse :: splitScan rest [] none
    else if c = '.' then
      String.mk (ds ++ '[' :: acc).reverse :: splitScan rest [] none
    else if c = '[' then splitScan rest (ds ++ '[' :: acc) (some [])
    else splitScan rest (c :: (ds ++ '[' :: acc)) none
  | c :: rest, acc, none =>
    if c = '.' then String.mk acc.reverse :: splitScan rest [] none
    else if c = '[' then splitScan rest acc (some [])
    else splitScan rest (c :: acc) none

/-- Models `path.split(/\.|\[(\d+)\]/).filter(Boolean)` from the source:
split on dots and bracketed numeric indices, keeping the digits of an index
as their own segment, and drop empty segments. -/
def splitPath (s : String) : List String :=
  (splitScan s.toList [] none).filter (fun t => t ≠ "")

/-- Modelled from the spec: `normalizeFormPath` from the `shared` package
(not under the verified sources) collapses bracket-index syntax into the
canonical dotted form used as the error-map key. -/
def normalizeFormPath (s : String) : String :=
  String.intercalate "." (splitPath s)

/-- Modelled from the spec: `isNotNestedPath` from vee-validate core (not
under the verified sources) recognises a single non-nested key: no dots and
no bracket indices. -/
def isNotNestedPath (s : String) : Bool :=
  !(s.toList.any (fun c => c = '.' ∨ c = '['))

/-- Modelled from the spec: `cleanupNonNestedPath` from vee-validate core
(not under the verified sources); for a single non-nested key the lookup
key is the path itself. -/
def cleanupNonNestedPath (s : String) : String := s

/-- Introspectable structure of a zod schema as the adapter walks it:
object schemas with a `shape` of named fields, array schemas with a
declared element type, `optional` and `default` wrappers (a default
wrapper stores the value its `defaultValue` provider returns), and
non-container base schemas. -/
inductive ZodSchemaM : Type where
  | zstring : ZodSchemaM
  | znumber : ZodSchemaM
  | zobject : List (String × ZodSchemaM) → ZodSchemaM
  | zarray : ZodSchemaM → ZodSchemaM
  | zoptional : ZodSchemaM → ZodSchemaM
  | zdefault : ZodSchemaM → Val → ZodSchemaM

/-- Translation of `getDefType`: the schema's internal `typeName`. -/
def getDefType : ZodSchemaM → String
  | .zstring => "ZodString"
  | .znumber => "ZodNumber"
  | .zobject _ => "ZodObject"
  | .zarray _ => "ZodArray"
  | .zoptional _ => "ZodOptional"
  | .zdefault _ _ => "ZodDefault"

/-- Translation of `isObjectSchema`: the def type is `ZodObject`. -/
def isObjectSchema (s : ZodSchemaM) : Bool :=
  getDefType s = "ZodObject"

/-- Translation of `isArraySchema`: the def type is `ZodArray`. -/
def isArraySchema (s : ZodSchemaM) : Bool :=
  getDefType s = "ZodArray"

/-- Models `schema instanceof ZodObject` used by `getDefaults`. -/
def isZodObjectInstance : ZodSchemaM → Bool
  | .zobject _ => true
  | _ => false

/-- Models `schema instanceof ZodDefault` used by `getDefaults`. -/
def isZodDefaultInstance : ZodSchemaM → Bool
  | .zdefault _ _ => true
  | _ => false

/-- First schema bound to a key in an object shape. -/
def lookupShape : List (String × ZodSchemaM) → String → Option ZodSchemaM
  | [], _ => none
  | (k, v) :: rest, key => if k = key then some v else lookupShape rest key

/-- Models `(schema as any).shape[p] || null`: field lookup on an object
schema, `none` for a missing field or a non-object schema. -/
def shapeGet : ZodSchemaM → String → Option ZodSchemaM
  | .zobject shape, key => lookupShape shape key
  | _, _ => none

/-- Models `(schema as any)._def?.type || (schema as any)._zod?.def?.type
|| null`: the declared element type of an array schema. -/
def arrayElemType : ZodSchemaM → Option ZodSchemaM
  | .zarray elem => some elem
  | _ => none

/-- Models zod's `schema.isOptional()`: whether `undefined` passes, true
exactly for `optional` and `default` wrappers at the top level. -/
def isOptional : ZodSchemaM → Bool
  | .zoptional _ => true
  | .zdefault _ _ => true
  | _ => false

/-- A zod validation issue: its `code`, its `path` (segments already
stringified, as `path.join('.')` would render them), its `message`, and
for `invalid_union` issues the per-branch `unionErrors`, each branch
carrying its own issue list.  A missing or empty `unionErrors` property is
represented by the empty branch list, which the flattening treats
identically. -/
inductive ZodIssue : Type where
  | mk : String → List String → String → List (List ZodIssue) → ZodIssue

/-- The `code` of an issue. -/
def ZodIssue.code : ZodIssue → String
  | .mk c _ _ _ => c

/-- The `path` of an issue. -/
def ZodIssue.path : ZodIssue → List String
  | .mk _ p _ _ => p

/-- The `message` of an issue. -/
def ZodIssue.message : ZodIssue → String
  | .mk _ _ m _ => m

/-- The issue lists of the branches of an `invalid_union` issue. -/
def ZodIssue.unionErrors : ZodIssue → List (List ZodIssue)
  | .mk _ _ _ u => u

/-- Outcome of `zodSchema.safeParseAsync`: validated (possibly
transformed) data, or the issue list of the validation error. -/
inductive SafeParseResult : Type where
  | success : Val → SafeParseResult
  | failure : List ZodIssue → SafeParseResult

/-- Result of the facade's `parse`: `value` is `none` exactly when the
result object carries no `value` key. -/
structure ParseResult where
  value : Option Val
  errors : List TypedSchemaError

/-- Numeric value of a digit string. -/
def digitsVal (cs : List Char) : Nat :=
  cs.foldl (fun n c => n * 10 + (c.toNat - 48)) 0

/-- A string that JavaScript treats as an array-index property key: the
canonical decimal form (nonempty, all digits, no leading zero except for
`"0"` itself) of an integer below `2 ^ 32 - 1`. -/
def isArrayIndexKey (s : String) : Bool :=
  let cs := s.toList
  cs ≠ [] && cs.all (fun c => c.isDigit) &&
    (cs.head? ≠ some '0' || cs = ['0']) && digitsVal cs < 4294967295

/-- Numeric value of an array-index-like key. -/
def keyNat (s : String) : Nat := digitsVal s.toList

/-- Insert an entry into a list sorted by ascending numeric key. -/
def insertByKey (e : TypedSchemaError) : List TypedSchemaError → List TypedSchemaError
  | [] => [e]
  | x :: xs =>
    if keyNat e.path ≤ keyNat x.path then e :: x :: xs
    else x :: insertByKey e xs

/-- Sort entries by ascending numeric key. -/
def sortByKey (l : List TypedSchemaError) : List TypedSchemaError :=
  l.foldr insertByKey []

/-- Models `Object.values` on the `Record<string, TypedSchemaError>` error
map: per ECMA-262 property enumeration, entries whose key is an
array-index-like string come first in ascending numeric order, and the
remaining entries follow in insertion order. -/
def jsObjectValues (errs : List TypedSchemaError) : List TypedSchemaError :=
  sortByKey (errs.filter (fun e => isArrayIndexKey e.path)) ++
    errs.filter (fun e => !isArrayIndexKey e.path)

/-- Size of a concatenation of lists, for termination of the recursive
issue processing. -/
theorem sizeOf_append_eq {α : Type} [SizeOf α] (a b : List α) :
    sizeOf (a ++ b) + 1 = sizeOf a + sizeOf b := by
  induction a with
  | nil => simp; omega
  | cons h t ih =>
    simp only [List.cons_append, List.cons.sizeOf_spec]
    omega

/-- Flattening a list of lists does not increase its size. -/
theorem sizeOf_flatten_le {α : Type} [SizeOf α] (l : List (List α)) :
    sizeOf l.flatten ≤ sizeOf l := by
  induction l with
  | nil => simp [List.flatten]
  | cons h t ih =>
    have hap := sizeOf_append_eq h t.flatten
    simp only [List.flatten_cons, List.cons.sizeOf_spec]
    omega

/-- Translation of the body of the `issues.forEach` in `processIssues`
after the normalized path is known: create the entry for the path on first
occurrence, then push the message. -/
def pushMessage (errs : List TypedSchemaError) (p msg : String) :
    List TypedSchemaError :=
  if errs.any (fun e => e.path = p) then
    errs.map (fun e => if e.path = p then ⟨e.path, e.errors ++ [msg]⟩ else e)
  else errs ++ [⟨p, [msg]⟩]

/-- Translation of `processIssues`: for each issue, compute the normalized
path; an `invalid_union` issue first recursively processes the flattened
issues of its branches and, when its own normalized path is empty,
contributes nothing further; every other message is appended to its path's
entry, which is created on first occurrence. -/
def processIssues : List ZodIssue → List TypedSchemaError → List TypedSchemaError
  | [], errs => errs
  | ZodIssue.mk code path msg ues :: rest, errs =>
    let p := normalizeFormPath (String.intercalate "." path)
    let errs1 :=
      if code = "invalid_union" then
        let errs' := processIssues ues.flatten errs
        if p = "" then errs' else pushMessage errs' p msg
      else pushMessage errs p msg
    processIssues rest errs1
termination_by issues _errs => sizeOf issues
decreasing_by
all_goals
  have h := sizeOf_flatten_le (α := ZodIssue) ues
  simp only [List.cons.sizeOf_spec, ZodIssue.mk.sizeOf_spec]
  omega

/-- Translation of the loop in `getSchemaForPath`: consume one segment per
iteration; descend through object shapes, descend into the element type on
a numeric index over an array schema, return the current schema when the
segments run out (the loop runs one index past the last segment), and
return `null` as soon as the current schema is `null`. -/
def walkPath : List String → Option ZodSchemaM → Option ZodSchemaM
  | [], current => current
  | p :: rest, current =>
    match current with
    | none => none
    | some cs =>
      if p = "" then some cs
      else if isObjectSchema cs then walkPath rest (shapeGet cs p)
      else if isIndex p && isArraySchema cs then walkPath rest (arrayElemType cs)
      else walkPath rest (some cs)

/-- Translation of `getSchemaForPath`: `null` unless the root is an object
schema; a non-nested path is looked up directly in the root's shape;
otherwise the split segments are walked by `walkPath`. -/
def getSchemaForPath (path : String) (schema : ZodSchemaM) : Option ZodSchemaM :=
  if !isObjectSchema schema then none
  else if isNotNestedPath path then shapeGet schema (cleanupNonNestedPath path)
  else walkPath (splitPath path) (some schema)

mutual

/-- Translation of `getDefaults`: only an object schema is introspected
(anything else yields `undefined`); its shape is rebuilt as an object via
`defaultsOfShape`. -/
def getDefaults : ZodSchemaM → Val
  | .zobject shape => .vobj (defaultsOfShape shape)
  | _ => .undef
termination_by s => sizeOf s

/-- Translation of the `Object.entries(schema.shape).map` in
`getDefaults`: a field with a `default` wrapper yields its provider's
value, an object field recurses, and any other field yields `undefined`. -/
def defaultsOfShape : List (String × ZodSchemaM) → List (String × Val)
  | [] => []
  | (key, value) :: rest =>
    (key,
      match value with
      | .zdefault _ d => d
      | .zobject s => getDefaults (.zobject s)
      | _ => Val.undef) :: defaultsOfShape rest
termination_by shape => sizeOf shape

end

/-- Translation of the facade's `parse`, over the outcome of
`safeParseAsync`: on success the validated data with an empty error list;
on failure no value and the values of the error map filled in by
`processIssues`, enumerated in JavaScript property order. -/
def parse (result : SafeParseResult) : ParseResult :=
  match result with
  | .success d => { value := some d, errors := [] }
  | .failure issues => { value := none, errors := jsObjectValues (processIssues issues []) }

/-- Translation of the facade's `cast`, over the strict-parse behaviour of
the wrapped schema (`strictParse v = none` models `zodSchema.parse(v)`
throwing): the parsed value when strict parsing succeeds, otherwise the
extracted defaults merged with the provided values when both are plain
mappings, otherwise the provided values unchanged. -/
def cast (strictParse : Val → Option Val) (zodSchema : ZodSchemaM) (values : Val) : Val :=
  match strictParse values with
  | some r => r
  | none =>
    let defaults := getDefaults zodSchema
    if isObjectV defaults && isObjectV values then mergeVals defaults values
    else values

/-- Translation of the facade's `describe` (`none` models calling it with
no path; the empty string is likewise falsy in the source's `!path`
check): without a path, the schema's own top-level optionality with
`exists: true`; with a path, the resolved sub-schema's optionality, or
`{ required: false, exists: false }` when resolution yields nothing.  The
source wraps the body in `try/catch`; every operation the body performs is
total here, so the `catch` arm is unreachable in the model. -/
def describe (zodSchema : ZodSchemaM) (path : Option String) : PathDescription :=
  match path with
  | none => ⟨!isOptional zodSchema, true⟩
  | some p =>
    if p = "" then ⟨!isOptional zodSchema, true⟩
    else
      match getSchemaForPath p zodSchema with
      | none => ⟨false, false⟩
      | some d => ⟨!isOptional d, true⟩

/-- Specification-side flattening of an issue list into the sequence of
`(normalized path, message)` contributions, in processing order: an
`invalid_union` issue contributes the recursively flattened issues of its
branches followed by its own message when its normalized path is nonempty;
any other issue contributes its own message. -/
def flattenIssues : List ZodIssue → List (String × String)
  | [] => []
  | ZodIssue.mk code path msg ues :: rest =>
    (let p := normalizeFormPath (String.intercalate "." path)
     if code = "invalid_union" then
       flattenIssues ues.flatten ++ (if p = "" then [] else [(p, msg)])
     else [(p, msg)]) ++ flattenIssues rest
termination_by issues => sizeOf issues
decreasing_by
all_goals
  have h := sizeOf_flatten_le (α := ZodIssue) ues
  simp only [List.cons.sizeOf_spec, ZodIssue.mk.sizeOf_spec]
  omega

/-- Record a sequence of `(path, message)` contributions into the error
map, in order. -/
def foldPush (errs : List TypedSchemaError) (pairs : List (String × String)) :
    List TypedSchemaError :=
  pairs.foldl (fun acc pm => pushMessage acc pm.1 pm.2) errs

/-- Specification-side error map: group the flattened contributions by
path, entries in first-seen path order, messages of one path in
contribution order. -/
def recordPairs (pairs : List (String × String)) : List TypedSchemaError :=
  foldPush [] pairs

/-- The paths of the entries of an error map. -/
def pathsOf (errs : List TypedSchemaError) : List String :=
  errs.map TypedSchemaError.path

/-- Specification-side default of a single field, as the spec describes
default extraction: a declared default-value provider is invoked, an
object field recurses, anything else has no default. -/
def fieldDefault : ZodSchemaM → Val
  | .zdefault _ d => d
  | .zobject s => getDefaults (.zobject s)
  | _ => Val.undef

/-- Recording a concatenation of contribution sequences records the first
and continues with the second. -/
theorem foldPush_append (E : List TypedSchemaError) (a b : List (String × String)) :
    foldPush E (a ++ b) = foldPush (foldPush E a) b := by
  simp [foldPush, List.foldl_append]

/-- Any list has positive size. -/
theorem sizeOf_list_pos {α : Type} [SizeOf α] (l : List α) : 1 ≤ sizeOf l := by
  cases l
  · simp
  · simp only [List.cons.sizeOf_spec]
    omega

/-- Bounded form of the refinement between `processIssues` and the
flatten-then-group pipeline, for induction on issue size. -/
theorem processIssues_eq_foldPush_aux :
    ∀ (n : Nat) (issues : List ZodIssue) (E : List TypedSchemaError),
      sizeOf issues ≤ n →
      processIssues issues E = foldPush E (flattenIssues issues) := by
  intro n
  induction n with
  | zero =>
    intro issues E h
    have := sizeOf_list_pos issues
    omega
  | succ n ih =>
    intro issues E h
    match issues with
    | [] => simp [processIssues, flattenIssues, foldPush]
    | ZodIssue.mk code path msg ues :: rest =>
      have hsz : sizeOf (ZodIssue.mk code path msg ues :: rest) =
          1 + (1 + sizeOf code + sizeOf path + sizeOf msg + sizeOf ues) + sizeOf rest := by
        simp only [List.cons.sizeOf_spec, ZodIssue.mk.sizeOf_spec]
      have hflat := sizeOf_flatten_le (α := ZodIssue) ues
      have hrest : sizeOf rest ≤ n := by omega
      have hues : sizeOf (List.flatten ues) ≤ n := by omega
      simp only [processIssues, flattenIssues]
      by_cases hc : code = "invalid_union"
      · by_cases hp : normalizeFormPath (String.intercalate "." path) = ""
        · simp only [hc, if_true, hp, List.append_nil]
          rw [ih _ _ hues, ih _ _ hrest, foldPush_append]
        · simp only [hc, if_true, if_neg hp]
          rw [ih _ _ hues, ih _ _ hrest, foldPush_append, foldPush_append]
          rfl
      · simp only [if_neg hc]
        rw [ih _ _ hrest, foldPush_append]
        rfl

/-- The recursive issue processing of the source equals the
specification-side flatten-then-group pipeline, from any starting map. -/
theorem processIssues_eq_foldPush (issues : List ZodIssue) (E : List TypedSchemaError) :
    processIssues issues E = foldPush E (flattenIssues issues) :=
  processIssues_eq_foldPush_aux (sizeOf issues) issues E (Nat.le_refl _)

/-- Recording one contribution then the rest. -/
theorem foldPush_cons (E : List TypedSchemaError) (pm : String × String)
    (rest : List (String × String)) :
    foldPush E (pm :: rest) = foldPush (pushMessage E pm.1 pm.2) rest := rfl

/-- Pushing a message guarantees an entry holding it at its path. -/
theorem pushMessage_entry (E : List TypedSchemaError) (p m : String) :
    ∃ e ∈ pushMessage E p m, e.path = p ∧ m ∈ e.errors := by
  unfold pushMessage
  split
  · next h =>
    obtain ⟨e0, he0, hp0⟩ := List.any_eq_true.mp h
    have hp0' : e0.path = p := of_decide_eq_true hp0
    refine ⟨⟨e0.path, e0.errors ++ [m]⟩, ?_, by simp [hp0']⟩
    have := List.mem_map_of_mem
      (fun e => if e.path = p then (⟨e.path, e.errors ++ [m]⟩ : TypedSchemaError) else e) he0
    simpa [hp0'] using this
  · exact ⟨⟨p, [m]⟩, List.mem_append_right _ (List.mem_singleton_self _), rfl, by simp⟩

/-- Pushing a message never removes a recorded message. -/
theorem pushMessage_mono (E : List TypedSchemaError) (p' m' p m : String)
    (h : ∃ e ∈ E, e.path = p ∧ m ∈ e.errors) :
    ∃ e ∈ pushMessage E p' m', e.path = p ∧ m ∈ e.errors := by
  obtain ⟨e0, he0, hp0, hm0⟩ := h
  unfold pushMessage
  split
  · refine ⟨if e0.path = p' then ⟨e0.path, e0.errors ++ [m']⟩ else e0,
      List.mem_map_of_mem _ he0, ?_⟩
    by_cases hpp : e0.path = p'
    · rw [if_pos hpp]
      exact ⟨hp0, List.mem_append_left _ hm0⟩
    · rw [if_neg hpp]
      exact ⟨hp0, hm0⟩
  · exact ⟨e0, List.mem_append_left _ he0, hp0, hm0⟩

/-- Recording more contributions never removes a recorded message. -/
theorem foldPush_mono : ∀ (pairs : List (String × String)) (E : List TypedSchemaError)
    (p m : String), (∃ e ∈ E, e.path = p ∧ m ∈ e.errors) →
    ∃ e ∈ foldPush E pairs, e.path = p ∧ m ∈ e.errors := by
  intro pairs
  induction pairs with
  | nil => intro E p m h; exact h
  | cons pm rest ih =>
    intro E p m h
    rw [foldPush_cons]
    exact ih _ _ _ (pushMessage_mono _ _ _ _ _ h)

/-- Every recorded contribution ends up as a message of the entry at its
path. -/
theorem foldPush_mem : ∀ (pairs : List (String × String)) (E : List TypedSchemaError)
    (p m : String), (p, m) ∈ pairs →
    ∃ e ∈ foldPush E pairs, e.path = p ∧ m ∈ e.errors := by
  intro pairs
  induction pairs with
  | nil => intro E p m h; cases h
  | cons pm rest ih =>
    intro E p m h
    rw [foldPush_cons]
    rcases List.mem_cons.mp h with h | h
    · cases h
      exact foldPush_mono _ _ _ _ (pushMessage_entry _ _ _)
    · exact ih _ _ _ h

/-- Pushing a message to an existing entry keeps the path list. -/
theorem pathsOf_pushMessage_pos (E : List TypedSchemaError) (p m : String)
    (h : (E.any fun e => e.path = p) = true) :
    pathsOf (pushMessage E p m) = pathsOf E := by
  rw [pushMessage, if_pos h]
  unfold pathsOf
  rw [List.map_map]
  apply List.map_congr_left
  intro e he
  by_cases hp : e.path = p <;> simp [hp]

/-- Pushing a message to a fresh path appends that path. -/
theorem pathsOf_pushMessage_neg (E : List TypedSchemaError) (p m : String)
    (h : ¬((E.any fun e => e.path = p) = true)) :
    pathsOf (pushMessage E p m) = pathsOf E ++ [p] := by
  rw [pushMessage, if_neg h]
  simp [pathsOf]

/-- Pushing a message preserves distinctness of entry paths. -/
theorem nodup_pathsOf_pushMessage (E : List TypedSchemaError) (p m : String)
    (h : (pathsOf E).Nodup) : (pathsOf (pushMessage E p m)).Nodup := by
  by_cases hc : (E.any fun e => e.path = p) = true
  · rw [pathsOf_pushMessage_pos E p m hc]; exact h
  · rw [pathsOf_pushMessage_neg E p m hc]
    have hnp : p ∉ pathsOf E := by
      intro hmem
      obtain ⟨e, he, hpe⟩ := List.mem_map.mp hmem
      exact hc (List.any_eq_true.mpr ⟨e, he, decide_eq_true hpe⟩)
    simp [List.nodup_append, h, hnp]

/-- Recording contributions preserves distinctness of entry paths. -/
theorem nodup_pathsOf_foldPush : ∀ (pairs : List (String × String))
    (E : List TypedSchemaError), (pathsOf E).Nodup →
    (pathsOf (foldPush E pairs)).Nodup := by
  intro pairs
  induction pairs with
  | nil => intro E h; exact h
  | cons pm rest ih =>
    intro E h
    rw [foldPush_cons]
    exact ih _ (nodup_pathsOf_pushMessage _ _ _ h)

/-- Sorted insertion is a permutation of consing. -/
theorem insertByKey_perm (e : TypedSchemaError) (l : List TypedSchemaError) :
    List.Perm (insertByKey e l) (e :: l) := by
  induction l with
  | nil => exact List.Perm.refl _
  | cons x xs ih =>
    rw [insertByKey]
    split
    · exact List.Perm.refl _
    · exact (ih.cons x).trans (List.Perm.swap e x xs)

/-- Sorting by numeric key permutes the entries. -/
theorem sortByKey_perm (l : List TypedSchemaError) : List.Perm (sortByKey l) l := by
  induction l with
  | nil => exact List.Perm.refl _
  | cons x xs ih =>
    have h : sortByKey (x :: xs) = insertByKey x (sortByKey xs) := rfl
    rw [h]
    exact (insertByKey_perm x (sortByKey xs)).trans (ih.cons x)

/-- JavaScript property enumeration permutes the record's entries. -/
theorem jsObjectValues_perm (E : List TypedSchemaError) :
    List.Perm (jsObjectValues E) E := by
  unfold jsObjectValues
  exact ((sortByKey_perm _).append_right _).trans (List.filter_append_perm _ E)

/-- A cons of issues flattens to the head's flattening then the tail's. -/
theorem flattenIssues_cons (i : ZodIssue) (rest : List ZodIssue) :
    flattenIssues (i :: rest) = flattenIssues [i] ++ flattenIssues rest := by
  cases i
  simp only [flattenIssues, List.append_nil]

/-- Contributions of a member issue are contributions of the list. -/
theorem mem_flattenIssues_of_mem : ∀ (issues : List ZodIssue) (i : ZodIssue)
    (pm : String × String), i ∈ issues → pm ∈ flattenIssues [i] →
    pm ∈ flattenIssues issues := by
  intro issues
  induction issues with
  | nil => intro i pm h; cases h
  | cons j rest ih =>
    intro i pm h hpm
    rw [flattenIssues_cons]
    rcases List.mem_cons.mp h with h | h
    · subst h; exact List.mem_append_left _ hpm
    · exact List.mem_append_right _ (ih i pm h hpm)

/-- The recursive default extraction of a shape is the field-wise map of
the specification-side per-field default. -/
theorem defaultsOfShape_eq_map (shape : List (String × ZodSchemaM)) :
    defaultsOfShape shape = shape.map (fun kv => (kv.1, fieldDefault kv.2)) := by
  induction shape with
  | nil => simp [defaultsOfShape]
  | cons kv rest ih =>
    obtain ⟨k, v⟩ := kv
    cases v <;> simp [defaultsOfShape, fieldDefault, ih]

/-- C1 (counterexample): the error entries do not always appear in
first-seen path order.  With the issue at path `name` reported before the
issue at path `0`, the error list enumerates the entry keyed `0` first,
because JavaScript objects enumerate array-index-like keys before the
other keys. -/
theorem parse_entry_order_counterexample :
    (parse (.failure [ZodIssue.mk "custom" ["name"] "m1" [],
        ZodIssue.mk "custom" ["0"] "m2" []])).errors =
      [⟨"0", ["m2"]⟩, ⟨"name", ["m1"]⟩] ∧
    pathsOf [(⟨"0", ["m2"]⟩ : TypedSchemaError), ⟨"name", ["m1"]⟩] ≠ ["name", "0"] := by
  constructor
  · have h1 : normalizeFormPath (String.intercalate "." ["name"]) = "name" := rfl
    have h2 : normalizeFormPath (String.intercalate "." ["0"]) = "0" := rfl
    have hA : isArrayIndexKey "0" = true := by decide
    have hB : isArrayIndexKey "name" = false := by decide
    simp [parse, processIssues, pushMessage, jsObjectValues, sortByKey, insertByKey,
      h1, h2, hA, hB]
  · decide

/-- C1 (amended): for every input on which the wrapped schema's
asynchronous safe-validation fails, `parse` returns a result with no value
key and an errors list equal to grouping the flattened issue contributions
by normalized path — each entry keyed by its path, messages of one path
merged in contribution order, entries in first-seen path order — and then
enumerating that record in JavaScript property order, which moves entries
whose path is an array-index-like string to the front in ascending numeric
order; entry paths are pairwise distinct. -/
theorem parse_failure_flattens_and_groups (issues : List ZodIssue) :
    (parse (.failure issues)).value = none ∧
    (parse (.failure issues)).errors =
      jsObjectValues (recordPairs (flattenIssues issues)) ∧
    (pathsOf (parse (.failure issues)).errors).Nodup := by
  refine ⟨rfl, ?_, ?_⟩
  · show jsObjectValues (processIssues issues []) = _
    rw [processIssues_eq_foldPush]
    rfl
  · have h1 : (pathsOf (processIssues issues [])).Nodup := by
      rw [processIssues_eq_foldPush]
      exact nodup_pathsOf_foldPush _ _ (by simp [pathsOf])
    have h2 := (jsObjectValues_perm (processIssues issues [])).map TypedSchemaError.path
    show ((jsObjectValues (processIssues issues [])).map TypedSchemaError.path).Nodup
    exact h2.nodup_iff.mpr h1

/-- C2: for every validation failure containing an `invalid_union` issue,
every contribution of the recursively flattened per-branch issue lists is
reported by `parse` as a message of the error entry at its own normalized
path; the union failure is not collapsed into one opaque entry. -/
theorem union_branch_issues_flattened (issues : List ZodIssue) (code : String)
    (path : List String) (msg : String) (ues : List (List ZodIssue))
    (hmem : ZodIssue.mk code path msg ues ∈ issues)
    (hcode : code = "invalid_union") (p m : String)
    (hpm : (p, m) ∈ flattenIssues ues.flatten) :
    ∃ e ∈ (parse (.failure issues)).errors, e.path = p ∧ m ∈ e.errors := by
  subst hcode
  have h1 : (p, m) ∈ flattenIssues [ZodIssue.mk "invalid_union" path msg ues] := by
    simp only [flattenIssues, List.append_nil, if_pos rfl]
    exact List.mem_append_left _ hpm
  have h2 := mem_flattenIssues_of_mem issues _ (p, m) hmem h1
  obtain ⟨e, he, hep, hem⟩ := foldPush_mem (flattenIssues issues) [] p m h2
  refine ⟨e, ?_, hep, hem⟩
  have h3 : e ∈ processIssues issues [] := by
    rw [processIssues_eq_foldPush]
    exact he
  show e ∈ jsObjectValues (processIssues issues [])
  exact (jsObjectValues_perm _).mem_iff.mpr h3

/-- C2 (witness): a union failure with two branches over the field `data`
reports the first branch's message under the entry for `data`. -/
theorem union_branch_issues_flattened_witness :
    ∃ e ∈ (parse (.failure [ZodIssue.mk "invalid_union" [] "union failed"
        [[ZodIssue.mk "custom" ["data"] "not a string" []],
         [ZodIssue.mk "custom" ["data"] "not a number" []]]])).errors,
      e.path = "data" ∧ "not a string" ∈ e.errors :=
  union_branch_issues_flattened _ "invalid_union" [] "union failed"
    [[ZodIssue.mk "custom" ["data"] "not a string" []],
     [ZodIssue.mk "custom" ["data"] "not a number" []]]
    (List.mem_singleton_self _) rfl "data" "not a string"
    (by
      have hA : normalizeFormPath (String.intercalate "." ["data"]) = "data" := rfl
      simp [flattenIssues, hA])

/-- C3 (counterexample): the array-index descent does not return
immediately.  On the path `a.0.b` over an object whose field `a` is an
array of objects, resolution continues past the array descent and yields
the `b` field's schema, not the array's element schema. -/
theorem array_index_descent_counterexample :
    getSchemaForPath "a.0.b"
        (.zobject [("a", .zarray (.zobject [("b", .zoptional .zstring)]))]) =
      some (.zoptional .zstring) ∧
    some (ZodSchemaM.zoptional .zstring) ≠
      some (ZodSchemaM.zobject [("b", .zoptional .zstring)]) :=
  ⟨rfl, fun h => ZodSchemaM.noConfusion (Option.some.inj h)⟩

/-- C3 (amended): in the path-resolution loop, when the current segment is
a numeric index over an array-shaped schema, the descent replaces the
current schema by the array's declared element-schema type and the loop
continues with the remaining path segments. -/
theorem array_index_descent_continues_loop (elem : ZodSchemaM) (p : String)
    (rest : List String) (hidx : isIndex p = true) :
    walkPath (p :: rest) (some (.zarray elem)) = walkPath rest (some elem) := by
  have hne : p ≠ "" := by
    intro he
    subst he
    simp [isIndex] at hidx
  simp [walkPath, hne, isObjectSchema, isArraySchema, getDefType, hidx, arrayElemType]

/-- C3 (witness): descending at index `0` into an array of strings leaves
the segment `b` to be resolved against the element schema. -/
theorem array_index_descent_continues_loop_witness :
    isIndex "0" = true ∧
    walkPath ["0", "b"] (some (.zarray .zstring)) = walkPath ["b"] (some .zstring) :=
  ⟨by decide, array_index_descent_continues_loop .zstring "0" ["b"] (by decide)⟩

/-- C4: evaluation of the code at the failing input.  Resolving `a.b`
over an object whose field `a` is a string schema encounters a
non-object, non-array schema while the segment `b` still has to be
resolved; instead of the claimed not-found result, the loop skips the
remaining segment and returns the string schema, so `describe` reports
`{ required: true, exists: true }` rather than
`{ required: false, exists: false }`. -/
theorem describe_nondescendable_reports_exists :
    getSchemaForPath "a.b" (.zobject [("a", .zstring)]) = some .zstring ∧
    describe (.zobject [("a", .zstring)]) (some "a.b") = ⟨true, true⟩ ∧
    describe (.zobject [("a", .zstring)]) (some "a.b") ≠ ⟨false, false⟩ :=
  ⟨rfl, rfl, by decide⟩

/-- C5: whenever the wrapped schema's synchronous strict parse throws,
`cast` returns the recursively extracted defaults merged with the
provided value (provided fields winning) when both are plain mappings,
and returns the provided value unchanged when either is not; being a total
function, it never raises. -/
theorem cast_fallback_best_effort (strictParse : Val → Option Val)
    (schema : ZodSchemaM) (v : Val) (hthrow : strictParse v = none) :
    ((isObjectV (getDefaults schema) && isObjectV v) = true →
        cast strictParse schema v = mergeVals (getDefaults schema) v) ∧
    ((isObjectV (getDefaults schema) && isObjectV v) = false →
        cast strictParse schema v = v) := by
  constructor <;> intro h <;> simp [cast, hthrow, h]

/-- C5 (witness): with a throwing strict parse, an object schema with one
defaulted field and an object value, `cast` returns the merge of the
extracted defaults with the value. -/
theorem cast_fallback_best_effort_witness :
    (fun (_ : Val) => (none : Option Val)) (Val.vobj [("b", Val.vstr "x")]) = none ∧
    cast (fun _ => none) (.zobject [("a", .zdefault .zstring (.vstr "d"))])
        (Val.vobj [("b", Val.vstr "x")]) =
      mergeVals (getDefaults (.zobject [("a", .zdefault .zstring (.vstr "d"))]))
        (Val.vobj [("b", Val.vstr "x")]) :=
  ⟨rfl,
    (cast_fallback_best_effort (fun _ => none) _ _ rfl).1
      (by simp [getDefaults, defaultsOfShape, isObjectV])⟩

/-- C6: whenever path resolution yields nothing for a nonempty path,
`describe` reports `{ required: false, exists: false }`; as a total
function over its model it never raises, and the source's `catch` arm —
the only other route to this report — is unreachable in the model. -/
theorem describe_unresolved_not_found (schema : ZodSchemaM) (p : String)
    (hne : p ≠ "") (hres : getSchemaForPath p schema = none) :
    describe schema (some p) = ⟨false, false⟩ := by
  simp [describe, hne, hres]

/-- C6 (witness): describing the path `x` on a bare string schema, which
resolution rejects because the root is not an object schema. -/
theorem describe_unresolved_not_found_witness :
    ("x" : String) ≠ "" ∧ describe .zstring (some "x") = ⟨false, false⟩ :=
  ⟨by decide, describe_unresolved_not_found .zstring "x" (by decide) rfl⟩

/-- C7: for every input the wrapped schema's asynchronous safe-validation
accepts, `parse` returns the validated (possibly transformed) data as the
value together with an empty error list. -/
theorem parse_success_returns_value (data : Val) :
    parse (.success data) = { value := some data, errors := [] } := rfl

/-- C8: `describe` without a path reports existence and requiredness equal
to the negation of the schema's own top-level declared optionality. -/
theorem describe_no_path_top_level (schema : ZodSchemaM) :
    describe schema none = ⟨!isOptional schema, true⟩ := rfl

/-- C9: default extraction introspects only object-shaped schemas — any
other schema yields `undefined`; an object's defaults map each declared
field to its declared default provider's value, recurse into object
fields, and report `undefined` otherwise; and with a throwing strict parse
a non-object root schema makes `cast` leave the provided value
untouched. -/
theorem getDefaults_object_introspection :
    (∀ s : ZodSchemaM, isZodObjectInstance s = false → getDefaults s = Val.undef) ∧
    (∀ shape : List (String × ZodSchemaM),
        getDefaults (.zobject shape) =
          .vobj (shape.map fun kv => (kv.1, fieldDefault kv.2))) ∧
    (∀ (inner : ZodSchemaM) (d : Val), fieldDefault (.zdefault inner d) = d) ∧
    (∀ shape : List (String × ZodSchemaM),
        fieldDefault (.zobject shape) = getDefaults (.zobject shape)) ∧
    (∀ (strictParse : Val → Option Val) (s : ZodSchemaM) (v : Val),
        strictParse v = none → isZodObjectInstance s = false →
        cast strictParse s v = v) := by
  refine ⟨?_, ?_, fun _ _ => rfl, fun _ => rfl, ?_⟩
  · intro s h
    cases s <;> first
      | (simp [getDefaults]; done)
      | (simp [isZodObjectInstance] at h)
  · intro shape
    simp [getDefaults, defaultsOfShape_eq_map]
  · intro sp s v hpn hobj
    have hd : getDefaults s = Val.undef := by
      cases s <;> first
        | (simp [getDefaults]; done)
        | (simp [isZodObjectInstance] at hobj)
    simp [cast, hpn, hd, isObjectV]

/-- C9 (witness): a bare string schema has no extractable defaults, and
`cast` over a throwing strict parse leaves a string value under an array
root schema untouched. -/
theorem getDefaults_object_introspection_witness :
    isZodObjectInstance .zstring = false ∧ getDefaults .zstring = Val.undef ∧
    cast (fun _ => none) (.zarray .zstring) (Val.vstr "q") = Val.vstr "q" :=
  ⟨rfl, getDefaults_object_introspection.1 .zstring rfl,
    getDefaults_object_introspection.2.2.2.2 (fun _ => none) (.zarray .zstring)
      (Val.vstr "q") rfl rfl⟩

/-- C10: an `invalid_union` issue whose normalized path is empty
contributes only its recursively flattened branch issues to the error map;
one with a nonempty normalized path additionally appends its own message
to that path's entry, after the branch contributions. -/
theorem union_issue_own_entry (code : String) (path : List String) (msg : String)
    (ues : List (List ZodIssue)) (E : List TypedSchemaError)
    (hcode : code = "invalid_union") :
    processIssues [ZodIssue.mk code path msg ues] E =
      (if normalizeFormPath (String.intercalate "." path) = "" then
        processIssues ues.flatten E
      else
        pushMessage (processIssues ues.flatten E)
          (normalizeFormPath (String.intercalate "." path)) msg) := by
  subst hcode
  by_cases hp : normalizeFormPath (String.intercalate "." path) = "" <;>
    simp [processIssues, hp]

/-- C10 (witness): a branchless union issue at the nonempty path `q`
appends its own message to the entry for `q`. -/
theorem union_issue_own_entry_witness :
    processIssues [ZodIssue.mk "invalid_union" ["q"] "u" []] [] =
      (if normalizeFormPath (String.intercalate "." ["q"]) = "" then
        processIssues (List.flatten ([] : List (List ZodIssue))) []
      else
        pushMessage (processIssues (List.flatten ([] : List (List ZodIssue))) [])
          (normalizeFormPath (String.intercalate "." ["q"])) "u") :=
  union_issue_own_entry "invalid_union" ["q"] "u" [] [] rfl

end VeeValidateZod
